import Mathlib

set_option maxHeartbeats 1000000

/-
Verification of the flowero MQTT visualizer core against its natural-language
specification.  The Python sources (src/message_queue.py, src/mqtt_client.py,
src/app.py) are shallowly embedded: each method becomes a pure Lean function
over an explicit state record, machine floats become exact rationals, and the
results of the external paho-mqtt library calls become explicit inputs.
-/

namespace Flowero

/-- The MQTTMessage dataclass of message_queue.py: topic, decoded payload,
wall-clock timestamp (modelled as an exact rational), qos, retain flag and
optional broker message id. -/
structure MQTTMessage where
  topic : String
  payload : String
  timestamp : ℚ
  qos : Nat
  retain : Bool
  mid : Option Nat
deriving DecidableEq

/-- The mutable state of MessageQueueManager (message_queue.py): the bounded
incoming queue, the bounded history deque, per-topic counters, the running
statistics and the sliding rate window. -/
structure MessageQueueManager where
  max_queue_size : Nat
  max_history : Nat
  incoming_queue : List MQTTMessage
  message_history : List MQTTMessage
  topic_stats : List (String × Nat)
  total_messages : Nat
  messages_per_second : ℚ
  last_message_time : Option ℚ
  rate_history : List ℚ
deriving DecidableEq

/-- MessageQueueManager.__init__ with the default arguments
(max_queue_size=10000, max_history=1000). -/
def initQueueManager : MessageQueueManager :=
  { max_queue_size := 10000
    max_history := 1000
    incoming_queue := []
    message_history := []
    topic_stats := []
    total_messages := 0
    messages_per_second := 0
    last_message_time := none
    rate_history := [] }

/-- The rate_calculation_window attribute (60 seconds); it is also used as the
maxlen of the rate_history deque. -/
def rate_calculation_window : Nat := 60

/-- collections.deque.append with a maxlen bound: the leftmost (oldest) entry
is discarded when the deque is full; a deque with maxlen 0 stays empty. -/
def dequeAppend (maxlen : Nat) (l : List α) (x : α) : List α :=
  if maxlen = 0 then []
  else if l.length < maxlen then l ++ [x]
  else l.drop (l.length + 1 - maxlen) ++ [x]

/-- queue.Queue.put_nowait succeeds iff the queue is unbounded (maxsize 0) or
holds strictly fewer items than maxsize. -/
def put_nowait_ok (max_queue_size : Nat) (queue : List MQTTMessage) : Bool :=
  decide (max_queue_size = 0 ∨ queue.length < max_queue_size)

/-- MessageQueueManager.add_message: non-blocking push of a new message onto
the incoming queue.  On a full queue it reports the overflow (the returned
`Option Nat` is the argument passed to the on_queue_full hook), evicts the
oldest queued item and retries the push once, dropping the new message if the
retry fails.  Returns the success flag, the new state and the hook argument. -/
def add_message (s : MessageQueueManager) (m : MQTTMessage) :
    Bool × MessageQueueManager × Option Nat :=
  if put_nowait_ok s.max_queue_size s.incoming_queue then
    (true, { s with incoming_queue := s.incoming_queue ++ [m] }, none)
  else
    let hook := some s.incoming_queue.length
    match s.incoming_queue with
    | [] => (false, s, hook)
    | _ :: rest =>
      if put_nowait_ok s.max_queue_size rest then
        (true, { s with incoming_queue := rest ++ [m] }, hook)
      else
        (false, { s with incoming_queue := rest }, hook)

/-- The eviction loop of MessageQueueManager._update_message_rate: pop entries
strictly older than now minus the 60-second window from the front of the rate
history. -/
def _update_window (rate_history : List ℚ) (now : ℚ) : List ℚ :=
  rate_history.dropWhile (fun t => decide (t < now - 60))

/-- The rate computation of MessageQueueManager._update_message_rate, applied
to the already-evicted window: len(rate_history) / (now - oldest) when more
than one sample remains and the span is positive, else 0. -/
def _rate_value (rate_history : List ℚ) (now : ℚ) : ℚ :=
  if 1 < rate_history.length then
    if 0 < now - rate_history.headD 0 then
      (rate_history.length : ℚ) / (now - rate_history.headD 0)
    else 0
  else 0

/-- The dict update of topic_stats in MessageQueueManager._handle_message:
insert the topic with count 0 when absent, then increment. -/
def bumpTopic : List (String × Nat) → String → List (String × Nat)
  | [], t => [(t, 1)]
  | (t', c) :: rest, t =>
    if t' = t then (t', c + 1) :: rest else (t', c) :: bumpTopic rest t

/-- MessageQueueManager._handle_message: under the data lock it increments the
total counter, records the last message time, bumps the per-topic counter,
appends the timestamp to the (maxlen 60) rate window, recomputes the rate with
the current wall clock `now`, and appends the message to the bounded history. -/
def _handle_message (s : MessageQueueManager) (m : MQTTMessage) (now : ℚ) :
    MessageQueueManager :=
  let rh := _update_window (dequeAppend rate_calculation_window s.rate_history m.timestamp) now
  { s with
    total_messages := s.total_messages + 1
    last_message_time := some m.timestamp
    topic_stats := bumpTopic s.topic_stats m.topic
    rate_history := rh
    messages_per_second := _rate_value rh now
    message_history := dequeAppend s.max_history s.message_history m }

/-- Python list slicing l[i:] for an arbitrary (possibly negative) integer
start index. -/
def pySliceFrom (l : List α) (i : Int) : List α :=
  if i < 0 then l.drop ((l.length : Int) + i).toNat else l.drop i.toNat

/-- MessageQueueManager.get_recent_messages: a copy of the whole history when
count is None, otherwise the trailing slice history[-count:]. -/
def get_recent_messages (s : MessageQueueManager) (count : Option Int) :
    List MQTTMessage :=
  match count with
  | none => s.message_history
  | some c => pySliceFrom s.message_history (-c)

/-- Drain a list of (message, wall-clock-at-processing) pairs through
_handle_message, as the background worker of message_queue.py does one item at
a time. -/
def processAll (s : MessageQueueManager) (l : List (MQTTMessage × ℚ)) :
    MessageQueueManager :=
  l.foldl (fun a p => _handle_message a p.1 p.2) s

/-- The suffix of length at most n of a list. -/
def takeLast (n : Nat) (l : List α) : List α := l.drop (l.length - n)

lemma takeLast_eq_self {n : Nat} {l : List α} (h : l.length ≤ n) : takeLast n l = l := by
  simp [takeLast, Nat.sub_eq_zero_of_le h]

lemma length_takeLast (n : Nat) (l : List α) : (takeLast n l).length = min n l.length := by
  simp [takeLast]
  omega

lemma dequeAppend_eq_takeLast (cap : Nat) (l : List α) (x : α) :
    dequeAppend cap l x = takeLast cap (l ++ [x]) := by
  unfold dequeAppend takeLast
  by_cases h0 : cap = 0
  · subst h0
    simp
  · simp only [h0, if_false, List.length_append, List.length_singleton]
    by_cases h1 : l.length < cap
    · have h2 : l.length + 1 - cap = 0 := by omega
      simp [h1, h2]
    · have hle : l.length + 1 - cap ≤ l.length := by omega
      simp [h1, List.drop_append_of_le_length hle]

lemma takeLast_append_takeLast (n : Nat) (a b : List α) :
    takeLast n (takeLast n a ++ b) = takeLast n (a ++ b) := by
  unfold takeLast
  rw [List.drop_append_eq_append_drop, List.drop_append_eq_append_drop, List.drop_drop]
  simp only [List.length_append, List.length_drop]
  congr 1
  · congr 1
    omega
  · congr 1
    omega

lemma handle_message_history (s : MessageQueueManager) (m : MQTTMessage) (now : ℚ) :
    (_handle_message s m now).message_history
      = dequeAppend s.max_history s.message_history m := rfl

lemma handle_message_max_history (s : MessageQueueManager) (m : MQTTMessage) (now : ℚ) :
    (_handle_message s m now).max_history = s.max_history := rfl

lemma processAll_history (l : List (MQTTMessage × ℚ)) :
    ∀ s : MessageQueueManager, s.message_history.length ≤ s.max_history →
      (processAll s l).message_history
          = takeLast s.max_history (s.message_history ++ l.map Prod.fst)
        ∧ (processAll s l).max_history = s.max_history := by
  induction l with
  | nil =>
    intro s h
    exact ⟨by simpa [processAll] using (takeLast_eq_self h).symm, rfl⟩
  | cons p rest ih =>
    intro s h
    have hstep : processAll s (p :: rest) = processAll (_handle_message s p.1 p.2) rest := rfl
    have hh : (_handle_message s p.1 p.2).message_history
        = takeLast s.max_history (s.message_history ++ [p.1]) := by
      rw [handle_message_history, dequeAppend_eq_takeLast]
    have hlen : (_handle_message s p.1 p.2).message_history.length
        ≤ (_handle_message s p.1 p.2).max_history := by
      rw [hh, handle_message_max_history, length_takeLast]
      omega
    obtain ⟨h1, h2⟩ := ih (_handle_message s p.1 p.2) hlen
    rw [hstep, h1, h2, handle_message_max_history, hh, takeLast_append_takeLast]
    constructor
    · congr 1
      simp
    · rfl

/-- C5: the message history never exceeds the configured capacity
(default 1000), and after inserting more messages than the capacity the
retained history is exactly the most recent `capacity` messages in arrival
order. -/
theorem history_capacity (cap : Nat) (l : List (MQTTMessage × ℚ))
    (h : cap < l.length) :
    initQueueManager.max_history = 1000 ∧
    (processAll { initQueueManager with max_history := cap } l).message_history.length ≤ cap ∧
    (processAll { initQueueManager with max_history := cap } l).message_history
      = (l.map Prod.fst).drop (l.length - cap) := by
  obtain ⟨h1, _⟩ := processAll_history l { initQueueManager with max_history := cap }
    (by simp [initQueueManager])
  refine ⟨rfl, ?_, ?_⟩
  · rw [h1, length_takeLast]
    exact min_le_left _ _
  · rw [h1]
    simp [takeLast, initQueueManager]

def msgA : MQTTMessage :=
  { topic := "a", payload := "pa", timestamp := 1, qos := 0, retain := false, mid := none }

def msgB : MQTTMessage :=
  { topic := "b", payload := "pb", timestamp := 2, qos := 0, retain := false, mid := none }

def msgC : MQTTMessage :=
  { topic := "c", payload := "pc", timestamp := 3, qos := 0, retain := false, mid := none }

theorem history_capacity_witness :
    initQueueManager.max_history = 1000 ∧
    (processAll { initQueueManager with max_history := 1 }
        [(msgA, 1), (msgB, 2)]).message_history.length ≤ 1 ∧
    (processAll { initQueueManager with max_history := 1 }
        [(msgA, 1), (msgB, 2)]).message_history
      = ([(msgA, (1 : ℚ)), (msgB, 2)].map Prod.fst).drop
          ([(msgA, (1 : ℚ)), (msgB, 2)].length - 1) :=
  history_capacity 1 [(msgA, 1), (msgB, 2)] (by decide)

/-- C10: get_recent_messages 0 returns the whole history (the trailing slice
of length 0 degenerates to the full list), identical to get_recent_messages
None, and any count larger than the history length also returns the whole
history. -/
theorem get_recent_messages_degenerate (s : MessageQueueManager) (c : Int)
    (h : (s.message_history.length : Int) < c) :
    get_recent_messages s (some 0) = s.message_history ∧
    get_recent_messages s none = s.message_history ∧
    get_recent_messages s (some c) = s.message_history := by
  refine ⟨?_, rfl, ?_⟩
  · simp [get_recent_messages, pySliceFrom]
  · have hc : -c < 0 := by omega
    have h0 : ((s.message_history.length : Int) + -c).toNat = 0 := by omega
    simp [get_recent_messages, pySliceFrom, hc, h0]

theorem get_recent_messages_degenerate_witness :
    get_recent_messages { initQueueManager with message_history := [msgA] } (some 0)
        = [msgA] ∧
    get_recent_messages { initQueueManager with message_history := [msgA] } none
        = [msgA] ∧
    get_recent_messages { initQueueManager with message_history := [msgA] } (some 5)
        = [msgA] :=
  get_recent_messages_degenerate { initQueueManager with message_history := [msgA] } 5
    (by decide)

/-- C4: enqueue against a non-full queue appends and succeeds with no overflow
hook; enqueue against a full queue reports the overflow hook with the current
size, evicts the single oldest queued item, retries the push once and
succeeds. -/
theorem add_message_overflow (s : MessageQueueManager) (m : MQTTMessage) :
    (put_nowait_ok s.max_queue_size s.incoming_queue = true →
       add_message s m = (true, { s with incoming_queue := s.incoming_queue ++ [m] }, none)) ∧
    (s.incoming_queue.length = s.max_queue_size → 0 < s.max_queue_size →
       (add_message s m).1 = true ∧
       (add_message s m).2.1.incoming_queue = s.incoming_queue.tail ++ [m] ∧
       (add_message s m).2.2 = some s.max_queue_size) := by
  constructor
  · intro hok
    simp [add_message, hok]
  · intro hlen hpos
    have hfull : put_nowait_ok s.max_queue_size s.incoming_queue = false := by
      simp only [put_nowait_ok, decide_eq_false_iff_not]
      omega
    cases hq : s.incoming_queue with
    | nil =>
      rw [hq] at hlen
      simp at hlen
      omega
    | cons a rest =>
      have hrlen : rest.length + 1 = s.max_queue_size := by
        rw [hq] at hlen
        simpa using hlen
      have hretry : put_nowait_ok s.max_queue_size rest = true := by
        simp only [put_nowait_ok, decide_eq_true_eq]
        omega
      rw [hq] at hfull
      refine ⟨?_, ?_, ?_⟩ <;> simp [add_message, hq, hfull, hretry] <;> omega

def qFull : MessageQueueManager :=
  { initQueueManager with max_queue_size := 2, incoming_queue := [msgA, msgB] }

theorem add_message_overflow_witness :
    (add_message qFull msgC).1 = true ∧
    (add_message qFull msgC).2.1.incoming_queue = [msgB, msgC] ∧
    (add_message qFull msgC).2.2 = some 2 := by
  have h := (add_message_overflow qFull msgC).2 (by decide) (by decide)
  exact ⟨h.1, by rw [h.2.1]; rfl, h.2.2⟩

def msgT0 : MQTTMessage :=
  { topic := "t", payload := "", timestamp := 0, qos := 0, retain := false, mid := none }

def msgT10 : MQTTMessage :=
  { topic := "t", payload := "", timestamp := 10, qos := 0, retain := false, mid := none }

/-- C1 counterexample: handling two messages with timestamps 0 and 10 (rate
recomputed at wall clock 10) yields messages_per_second = 2/10 = 1/5, not the
claimed (count - 1)/(newest - oldest) = 1/10: the code divides the full window
count by (now - oldest), not (count - 1) by (newest - oldest). -/
theorem rate_formula_counterexample :
    (_handle_message (_handle_message initQueueManager msgT0 0) msgT10 10).messages_per_second
        = 2 / 10 ∧
    (2 / 10 : ℚ) ≠ (2 - 1) / (10 - 0) := by
  constructor
  · norm_num [_handle_message, _update_window, _rate_value, dequeAppend,
      rate_calculation_window, initQueueManager, msgT0, msgT10, List.dropWhile]
  · norm_num

/-- A synthetic message carrying only its timestamp, used for the evenly
spaced rate scenario. -/
def mkMsg (t : ℚ) : MQTTMessage :=
  { topic := "even", payload := "", timestamp := t, qos := 0, retain := false, mid := none }

/-- Timestamps of K messages evenly spaced d seconds apart starting at 0. -/
def evenTimestamps (K : Nat) (d : ℚ) : List ℚ :=
  (List.range K).map (fun i : ℕ => (i : ℚ) * d)

/-- Drain the evenly spaced scenario through _handle_message, recomputing the
rate for each message at a wall clock equal to that message's timestamp. -/
def processEven (K : Nat) (d : ℚ) : MessageQueueManager :=
  (evenTimestamps K d).foldl (fun s t => _handle_message s (mkMsg t) t) initQueueManager

lemma evenTimestamps_succ (j : Nat) (d : ℚ) :
    evenTimestamps (j + 1) d = evenTimestamps j d ++ [(j : ℚ) * d] := by
  simp [evenTimestamps, List.range_succ]

lemma evenTimestamps_length (j : Nat) (d : ℚ) : (evenTimestamps j d).length = j := by
  rw [evenTimestamps, List.length_map, List.length_range]

lemma evenTimestamps_cons (j : Nat) (d : ℚ) :
    evenTimestamps (j + 1) d = 0 :: (List.range j).map (fun i : ℕ => ((i + 1 : ℕ) : ℚ) * d) := by
  rw [evenTimestamps, List.range_succ_eq_map, List.map_cons, List.map_map]
  norm_num

lemma handle_message_rate_history (s : MessageQueueManager) (m : MQTTMessage) (now : ℚ) :
    (_handle_message s m now).rate_history
      = _update_window (dequeAppend rate_calculation_window s.rate_history m.timestamp) now :=
  rfl

lemma handle_message_rate (s : MessageQueueManager) (m : MQTTMessage) (now : ℚ) :
    (_handle_message s m now).messages_per_second
      = _rate_value
          (_update_window (dequeAppend rate_calculation_window s.rate_history m.timestamp) now)
          now :=
  rfl

lemma dequeAppend_of_lt {maxlen : Nat} {l : List α} (x : α) (h : l.length < maxlen) :
    dequeAppend maxlen l x = l ++ [x] := by
  have h0 : ¬ maxlen = 0 := by omega
  simp [dequeAppend, h0, h]

lemma update_window_nodrop (rest : List ℚ) (now : ℚ) (h : now ≤ 60) :
    _update_window (0 :: rest) now = 0 :: rest := by
  unfold _update_window
  rw [List.dropWhile_cons]
  have hlt : ¬ ((0 : ℚ) < now - 60) := by linarith
  simp [hlt]

lemma rate_value_cons (rest : List ℚ) (now : ℚ) (h1 : 1 ≤ rest.length) (h2 : 0 < now) :
    _rate_value (0 :: rest) now = ((rest.length + 1 : ℕ) : ℚ) / now := by
  have hlen : 1 < (0 :: rest).length := by
    simp
    omega
  unfold _rate_value
  rw [if_pos hlen, List.headD_cons, sub_zero, if_pos h2, List.length_cons]

lemma processEven_rate_history (d : ℚ) (hd : 0 ≤ d) :
    ∀ j : Nat, j ≤ 60 → ((j : ℚ) - 1) * d ≤ 60 →
      (processEven j d).rate_history = evenTimestamps j d := by
  intro j
  induction j with
  | zero =>
    intro _ _
    rfl
  | succ k ih =>
    intro hj hw
    have hk60 : k ≤ 60 := by omega
    have hkd : (k : ℚ) * d ≤ 60 := by
      push_cast at hw
      ring_nf at hw ⊢
      linarith
    have hk1d : ((k : ℚ) - 1) * d ≤ 60 := by nlinarith
    have hprev := ih hk60 hk1d
    have hstep : processEven (k + 1) d
        = _handle_message (processEven k d) (mkMsg ((k : ℚ) * d)) ((k : ℚ) * d) := by
      rw [processEven, evenTimestamps_succ, List.foldl_append]
      rfl
    rw [hstep, handle_message_rate_history, hprev]
    have hlen : (evenTimestamps k d).length < rate_calculation_window := by
      rw [evenTimestamps_length, rate_calculation_window]
      omega
    rw [show (mkMsg ((k : ℚ) * d)).timestamp = (k : ℚ) * d from rfl,
      dequeAppend_of_lt _ hlen, ← evenTimestamps_succ, evenTimestamps_cons,
      update_window_nodrop _ _ hkd, ← evenTimestamps_cons]

/-- C1 amended: on the code, the recomputed rate divides the full window
count by (now - oldest): for K messages evenly spaced d apart (2 ≤ K ≤ 60,
all inside the 60 s window), recomputed at the newest timestamp, the rate is
K / ((K-1)·d) rather than 1/d; with fewer than two samples the rate is 0. -/
theorem message_rate_even (K : Nat) (d : ℚ) (h2 : 2 ≤ K) (h60 : K ≤ 60)
    (hd : 0 < d) (hw : ((K : ℚ) - 1) * d ≤ 60) :
    (processEven K d).messages_per_second = (K : ℚ) / (((K : ℚ) - 1) * d) ∧
    (∀ t now : ℚ, (_handle_message initQueueManager (mkMsg t) now).messages_per_second = 0) := by
  constructor
  · obtain ⟨k, rfl⟩ : ∃ k, K = k + 1 := ⟨K - 1, by omega⟩
    have hk1 : 1 ≤ k := by omega
    have hk60 : k ≤ 60 := by omega
    have hkd : (k : ℚ) * d ≤ 60 := by
      push_cast at hw
      ring_nf at hw ⊢
      linarith
    have hk1d : ((k : ℚ) - 1) * d ≤ 60 := by nlinarith
    have hkpos : 0 < (k : ℚ) * d := by
      have : (0 : ℚ) < (k : ℚ) := by
        exact_mod_cast Nat.pos_of_ne_zero (by omega)
      positivity
    have hprev := processEven_rate_history d hd.le k hk60 hk1d
    have hstep : processEven (k + 1) d
        = _handle_message (processEven k d) (mkMsg ((k : ℚ) * d)) ((k : ℚ) * d) := by
      rw [processEven, evenTimestamps_succ, List.foldl_append]
      rfl
    have hlen : (evenTimestamps k d).length < rate_calculation_window := by
      rw [evenTimestamps_length, rate_calculation_window]
      omega
    rw [hstep, handle_message_rate, hprev,
      show (mkMsg ((k : ℚ) * d)).timestamp = (k : ℚ) * d from rfl,
      dequeAppend_of_lt _ hlen, ← evenTimestamps_succ, evenTimestamps_cons,
      update_window_nodrop _ _ hkd,
      rate_value_cons _ _ (by simp; omega) hkpos]
    simp only [List.length_map, List.length_range]
    push_cast
    ring_nf
  · intro t now
    rw [handle_message_rate, show (mkMsg t).timestamp = t from rfl,
      show dequeAppend rate_calculation_window initQueueManager.rate_history t = [t] from rfl]
    have hle : (List.dropWhile (fun x => decide (x < now - 60)) [t]).length ≤ 1 := by
      rw [List.dropWhile_cons]
      split <;> simp
    have hnot : ¬ (1 < (List.dropWhile (fun x => decide (x < now - 60)) [t]).length) := by
      omega
    simp [_update_window, _rate_value, hnot]

theorem message_rate_even_witness :
    (processEven 2 30).messages_per_second = ((2 : ℕ) : ℚ) / ((((2 : ℕ) : ℚ) - 1) * 30) :=
  (message_rate_even 2 30 (by norm_num) (by norm_num) (by norm_num) (by norm_num)).1

/-- The ConnectionStatus enum of mqtt_client.py. -/
inductive ConnectionStatus where
  | disconnected
  | connecting
  | connected
  | connectionFailed
  | connectionLost
deriving DecidableEq

/-- Outcome of the synchronous paho connect call inside
MQTTClientWrapper.connect: either MQTT_ERR_SUCCESS, or a non-success return
code / raised exception carrying an error message. -/
inductive LibConnect where
  | success
  | failure (msg : String)
deriving DecidableEq

/-- The mutable state of MQTTClientWrapper (mqtt_client.py).  The paho client
handle itself is external; its call results enter as explicit inputs.  The
list `notifications` records the arguments of successive on_status_change
callback invocations; `reconnect_timer` is `some delay` while a reconnect
timer is outstanding; `processing_started` mirrors whether loop_start /
message-queue processing has been started. -/
structure MQTTClientWrapper where
  status : ConnectionStatus
  host : Option String
  port : Option Int
  username : Option String
  password : Option String
  last_error : Option String
  connection_attempts : Nat
  auto_reconnect : Bool
  reconnect_timer : Option ℚ
  reconnect_attempts : Nat
  subscribed_topics : List (String × Nat)
  pending_subscriptions : List String
  notifications : List ConnectionStatus
  processing_started : Bool
deriving DecidableEq

/-- MQTTClientWrapper.__init__: disconnected, no target recorded,
auto-reconnect enabled, empty registries. -/
def initWrapper : MQTTClientWrapper :=
  { status := .disconnected
    host := none
    port := none
    username := none
    password := none
    last_error := none
    connection_attempts := 0
    auto_reconnect := true
    reconnect_timer := none
    reconnect_attempts := 0
    subscribed_topics := []
    pending_subscriptions := []
    notifications := []
    processing_started := false }

/-- MQTTClientWrapper._set_status: update the status and fire the
on_status_change callback only when the status actually changes. -/
def _set_status (s : MQTTClientWrapper) (n : ConnectionStatus) : MQTTClientWrapper :=
  if s.status = n then s
  else { s with status := n, notifications := s.notifications ++ [n] }

/-- MQTTClientWrapper._cancel_reconnect_timer. -/
def _cancel_reconnect_timer (s : MQTTClientWrapper) : MQTTClientWrapper :=
  { s with reconnect_timer := none }

/-- The exponential backoff delay of MQTTClientWrapper._schedule_reconnect:
min(reconnect_delay_base * 2^attempt, reconnect_delay_max) with base 1.0 and
max 60.0 seconds. -/
def reconnectDelay (attempt : Nat) : ℚ :=
  min ((1 : ℚ) * 2 ^ attempt) 60

/-- Python truthiness of the optional host string: None and the empty string
are falsy. -/
def hostFalsy (h : Option String) : Bool :=
  decide (h.getD "" = "")

/-- MQTTClientWrapper._schedule_reconnect: skipped when auto-reconnect is off
or no host is recorded; otherwise cancels any existing timer, arms a new one
with the backoff delay and increments the attempt counter. -/
def _schedule_reconnect (s : MQTTClientWrapper) : MQTTClientWrapper :=
  if s.auto_reconnect = false ∨ hostFalsy s.host then s
  else
    let s1 := _cancel_reconnect_timer s
    { s1 with
      reconnect_timer := some (reconnectDelay s1.reconnect_attempts)
      reconnect_attempts := s1.reconnect_attempts + 1 }

/-- MQTTClientWrapper.queue_subscription: append the topic to the pending
list unless it is already pending; returns whether it was newly queued. -/
def queue_subscription (s : MQTTClientWrapper) (t : String) :
    Bool × MQTTClientWrapper :=
  if t ∈ s.pending_subscriptions then (false, s)
  else (true, { s with pending_subscriptions := s.pending_subscriptions ++ [t] })

/-- Python dict assignment subscribed_topics[topic] = qos on an association
list with unique keys. -/
def setKey : List (String × Nat) → String → Nat → List (String × Nat)
  | [], t, q => [(t, q)]
  | (t', q') :: rest, t, q =>
    if t' = t then (t, q) :: rest else (t', q') :: setKey rest t q

/-- MQTTClientWrapper.subscribe_to_topic: while not connected the request is
queued via queue_subscription; while connected the broker's acceptance of the
paho subscribe call is the input `broker`, and on success the topic is
recorded in subscribed_topics. -/
def subscribe_to_topic (s : MQTTClientWrapper) (t : String) (q : Nat) (broker : Bool) :
    Bool × MQTTClientWrapper :=
  if s.status ≠ .connected then queue_subscription s t
  else if broker then
    (true, { s with subscribed_topics := setKey s.subscribed_topics t q })
  else (false, s)

/-- The pending-subscription flush loop of MQTTClientWrapper._on_connect:
iterate over a copy of the pending list, call subscribe_to_topic (with the
default qos 0) for each topic, and remove from the live pending list those
whose subscribe succeeded.  `accepted` is the set of topics the broker
accepts. -/
def flushPending : List String → List String → MQTTClientWrapper → MQTTClientWrapper
  | [], _, s => s
  | t :: ts, accepted, s =>
    let r := subscribe_to_topic s t 0 (decide (t ∈ accepted))
    let s' := if r.1 then
        { r.2 with pending_subscriptions := r.2.pending_subscriptions.erase t }
      else r.2
    flushPending ts accepted s'

/-- MQTTClientWrapper._on_connect: on rc = 0 transition to Connected, reset
the attempt counters, clear the last error, cancel any reconnect timer and
flush the pending subscriptions; on a non-zero rc record the error, move to
ConnectionFailed and schedule a reconnect. -/
def _on_connect (s : MQTTClientWrapper) (ok : Bool) (accepted : List String) :
    MQTTClientWrapper :=
  if ok then
    let s1 := _set_status s .connected
    let s2 := { s1 with
      connection_attempts := 0
      reconnect_attempts := 0
      last_error := none
      reconnect_timer := none }
    flushPending s2.pending_subscriptions accepted s2
  else
    let s1 := { s with last_error := some ("connack failure") }
    _schedule_reconnect (_set_status s1 .connectionFailed)

/-- MQTTClientWrapper._on_disconnect: a clean disconnect (rc = 0) moves to
Disconnected and cancels the reconnect timer; an unexpected one moves to
ConnectionLost and schedules a reconnect. -/
def _on_disconnect (s : MQTTClientWrapper) (clean : Bool) : MQTTClientWrapper :=
  if clean then _cancel_reconnect_timer (_set_status s .disconnected)
  else _schedule_reconnect (_set_status s .connectionLost)

/-- MQTTClientWrapper.connect: rejected while Connected or Connecting;
otherwise records host/port/credentials, moves to Connecting, bumps the
attempt counter and issues the library connect, whose synchronous outcome is
the input `lib`.  On success the network loop and queue processing start; on
a synchronous failure the error is recorded and the state becomes
ConnectionFailed. -/
def connect (s : MQTTClientWrapper) (h : String) (p : Int)
    (u pw : Option String) (lib : LibConnect) : Bool × MQTTClientWrapper :=
  if s.status = .connected ∨ s.status = .connecting then (false, s)
  else
    let s1 := { s with host := some h, port := some p, username := u, password := pw }
    let s2 := _set_status s1 .connecting
    let s3 := { s2 with connection_attempts := s2.connection_attempts + 1 }
    match lib with
    | .success => (true, { s3 with processing_started := true })
    | .failure m =>
      (false, _set_status { s3 with last_error := some m } .connectionFailed)

/-- MQTTClientWrapper.disconnect: always cancels any pending reconnect timer;
while Connected/Connecting it stops processing and issues the library
disconnect (whose success is the input `lib`), moving to Disconnected only on
success; from any other state it stops processing and moves to Disconnected,
reporting success. -/
def disconnect (s : MQTTClientWrapper) (lib : Bool) : Bool × MQTTClientWrapper :=
  let s0 := _cancel_reconnect_timer s
  if s0.status = .connected ∨ s0.status = .connecting then
    let s1 := { s0 with processing_started := false }
    if lib then (true, _set_status s1 .disconnected) else (false, s1)
  else
    let s1 := { s0 with processing_started := false }
    (true, _set_status s1 .disconnected)

/-- MQTTClientWrapper.unsubscribe_from_topic: only valid while connected; on
broker acceptance the topic is removed from subscribed_topics. -/
def unsubscribe_from_topic (s : MQTTClientWrapper) (t : String) (broker : Bool) :
    Bool × MQTTClientWrapper :=
  if s.status ≠ .connected then (false, s)
  else if broker then
    (true, { s with subscribed_topics := s.subscribed_topics.filter (fun p => decide (p.1 ≠ t)) })
  else (false, s)

/-- A topic appears in get_subscribed_topics. -/
def topic_active (s : MQTTClientWrapper) (t : String) : Prop :=
  t ∈ s.subscribed_topics.map Prod.fst

instance (s : MQTTClientWrapper) (t : String) : Decidable (topic_active s t) := by
  unfold topic_active
  infer_instance

/-- External events driving the wrapper: public API calls together with the
library callbacks, each carrying the relevant external outcome. -/
inductive MEvent where
  | subscribeReq (t : String) (q : Nat) (broker : Bool)
  | unsubscribeReq (t : String) (broker : Bool)
  | connAck (ok : Bool) (accepted : List String)
  | discSignal (clean : Bool)
  | connectReq (h : String) (p : Int) (lib : LibConnect)
  | discReq (lib : Bool)

/-- Apply one event to the wrapper state. -/
def applyEvent (s : MQTTClientWrapper) : MEvent → MQTTClientWrapper
  | .subscribeReq t q b => (subscribe_to_topic s t q b).2
  | .unsubscribeReq t b => (unsubscribe_from_topic s t b).2
  | .connAck ok accepted => _on_connect s ok accepted
  | .discSignal clean => _on_disconnect s clean
  | .connectReq h p lib => (connect s h p none none lib).2
  | .discReq lib => (disconnect s lib).2

/-- Run a trace of events from a state. -/
def runEvents (s : MQTTClientWrapper) (l : List MEvent) : MQTTClientWrapper :=
  l.foldl applyEvent s

lemma set_status_status (s : MQTTClientWrapper) (n : ConnectionStatus) :
    (_set_status s n).status = n := by
  unfold _set_status
  split
  · assumption
  · rfl

lemma set_status_timer (s : MQTTClientWrapper) (n : ConnectionStatus) :
    (_set_status s n).reconnect_timer = s.reconnect_timer := by
  unfold _set_status
  split <;> rfl

lemma set_status_processing (s : MQTTClientWrapper) (n : ConnectionStatus) :
    (_set_status s n).processing_started = s.processing_started := by
  unfold _set_status
  split <;> rfl

/-- C2 amended: a connect call accepted from a non-Connected, non-Connecting
state whose library connect fails synchronously returns failure, transitions
directly to ConnectionFailed and records the error as last_error — but it
does not schedule a reconnect: the reconnect timer and the reconnect attempt
counter are left exactly as they were. -/
theorem connect_sync_failure (s : MQTTClientWrapper) (h : String) (p : Int)
    (u pw : Option String) (m : String)
    (h1 : s.status ≠ .connected) (h2 : s.status ≠ .connecting) :
    (connect s h p u pw (.failure m)).1 = false ∧
    (connect s h p u pw (.failure m)).2.status = .connectionFailed ∧
    (connect s h p u pw (.failure m)).2.last_error = some m ∧
    (connect s h p u pw (.failure m)).2.reconnect_timer = s.reconnect_timer ∧
    (connect s h p u pw (.failure m)).2.reconnect_attempts = s.reconnect_attempts := by
  have hg : ¬ (s.status = .connected ∨ s.status = .connecting) := by tauto
  simp [connect, _set_status, hg, h1, h2]

/-- C2 counterexample: the very first connect call of a fresh wrapper, with a
synchronously failing library connect, ends in ConnectionFailed with the
error recorded and returns failure, yet no reconnect is scheduled — the timer
stays none and the attempt counter stays 0 — even though _schedule_reconnect
would have armed a timer from that very state (auto-reconnect is on and the
host is recorded). -/
theorem connect_sync_failure_counterexample :
    (connect initWrapper ("broker") 1883 none none (.failure ("boom"))).1 = false ∧
    (connect initWrapper ("broker") 1883 none none (.failure ("boom"))).2.status
        = .connectionFailed ∧
    (connect initWrapper ("broker") 1883 none none (.failure ("boom"))).2.last_error
        = some ("boom") ∧
    (connect initWrapper ("broker") 1883 none none (.failure ("boom"))).2.reconnect_timer
        = none ∧
    (connect initWrapper ("broker") 1883 none none (.failure ("boom"))).2.reconnect_attempts
        = 0 ∧
    (_schedule_reconnect
        (connect initWrapper ("broker") 1883 none none (.failure ("boom"))).2).reconnect_timer
      = some (reconnectDelay 0) := by
  have hfalsy : hostFalsy (some ("broker")) = false := rfl
  simp [connect, initWrapper, _set_status, _schedule_reconnect, hostFalsy,
    _cancel_reconnect_timer]

theorem connect_sync_failure_witness :
    (connect initWrapper ("b") 1 none none (.failure ("e"))).1 = false ∧
    (connect initWrapper ("b") 1 none none (.failure ("e"))).2.status = .connectionFailed ∧
    (connect initWrapper ("b") 1 none none (.failure ("e"))).2.last_error = some ("e") ∧
    (connect initWrapper ("b") 1 none none (.failure ("e"))).2.reconnect_timer
        = initWrapper.reconnect_timer ∧
    (connect initWrapper ("b") 1 none none (.failure ("e"))).2.reconnect_attempts
        = initWrapper.reconnect_attempts :=
  connect_sync_failure initWrapper ("b") 1 none none ("e") (by decide) (by decide)

lemma subscribe_to_topic_reconnect_attempts (s : MQTTClientWrapper) (t : String)
    (q : Nat) (b : Bool) :
    (subscribe_to_topic s t q b).2.reconnect_attempts = s.reconnect_attempts := by
  unfold subscribe_to_topic queue_subscription
  split
  · split <;> rfl
  · split <;> rfl

lemma flushPending_reconnect_attempts (l accepted : List String) :
    ∀ s : MQTTClientWrapper,
      (flushPending l accepted s).reconnect_attempts = s.reconnect_attempts := by
  induction l with
  | nil =>
    intro s
    rfl
  | cons t ts ih =>
    intro s
    show (flushPending ts accepted _).reconnect_attempts = _
    rw [ih]
    split
    · exact subscribe_to_topic_reconnect_attempts s t 0 _
    · exact subscribe_to_topic_reconnect_attempts s t 0 _

/-- C6: the reconnect delay for scheduling attempt n is exactly
min(1·2^n, 60) seconds: the sequence from attempt 0 is 1, 2, 4, 8, 16, 32,
60, 60, 60; every delay from attempt 6 on is 60; each scheduling arms the
timer with that delay and increments the counter; and a successful connect
acknowledgment resets the counter to 0. -/
theorem reconnect_backoff :
    (List.range 9).map reconnectDelay = [1, 2, 4, 8, 16, 32, 60, 60, 60] ∧
    (∀ n : Nat, reconnectDelay (n + 6) = 60) ∧
    (∀ s : MQTTClientWrapper, s.auto_reconnect = true → hostFalsy s.host = false →
      (_schedule_reconnect s).reconnect_timer = some (reconnectDelay s.reconnect_attempts) ∧
      (_schedule_reconnect s).reconnect_attempts = s.reconnect_attempts + 1) ∧
    (∀ (s : MQTTClientWrapper) (accepted : List String),
      (_on_connect s true accepted).reconnect_attempts = 0) := by
  refine ⟨?_, ?_, ?_, ?_⟩
  · norm_num [List.range_succ, reconnectDelay, min_def]
  · intro n
    rw [reconnectDelay, one_mul]
    apply min_eq_right
    calc (60 : ℚ) ≤ 2 ^ 6 := by norm_num
    _ ≤ 2 ^ (n + 6) := by
      apply pow_le_pow_right₀ (by norm_num)
      omega
  · intro s ha hh
    have hc : ¬ (s.auto_reconnect = false ∨ hostFalsy s.host = true) := by
      simp [ha, hh]
    constructor <;> simp [_schedule_reconnect, _cancel_reconnect_timer, ha, hh]
  · intro s accepted
    unfold _on_connect
    simp only [if_true]
    rw [flushPending_reconnect_attempts]

theorem reconnect_backoff_witness :
    reconnectDelay (0 + 6) = 60 ∧
    (_schedule_reconnect { initWrapper with host := some ("b") }).reconnect_timer
        = some (reconnectDelay ({ initWrapper with host := some ("b") } :
            MQTTClientWrapper).reconnect_attempts) ∧
    (_schedule_reconnect { initWrapper with host := some ("b") }).reconnect_attempts
        = ({ initWrapper with host := some ("b") } :
            MQTTClientWrapper).reconnect_attempts + 1 := by
  have h := reconnect_backoff
  exact ⟨h.2.1 0, h.2.2.1 _ rfl rfl⟩

lemma disconnect_success_state (s : MQTTClientWrapper) (lib : Bool)
    (h : (disconnect s lib).1 = true) :
    (disconnect s lib).2
      = _set_status
          { _cancel_reconnect_timer s with processing_started := false }
          .disconnected := by
  by_cases hc : (_cancel_reconnect_timer s).status = .connected ∨
      (_cancel_reconnect_timer s).status = .connecting
  · by_cases hl : lib = true
    · simp [disconnect, hc, hl]
    · exfalso
      simp [disconnect, hc, hl] at h
  · simp [disconnect, hc]

lemma disconnect_noop (d : MQTTClientWrapper) (lib : Bool)
    (h1 : d.status = .disconnected) (h2 : d.reconnect_timer = none)
    (h3 : d.processing_started = false) :
    disconnect d lib = (true, d) := by
  obtain ⟨st, ho, po, un, pw, le, ca, ar, rt, ra, su, pe, no, ps⟩ := d
  simp only at h1 h2 h3
  subst h1
  subst h2
  subst h3
  simp [disconnect, _cancel_reconnect_timer, _set_status]

/-- C8 amended: whenever a disconnect call reports success, the resulting
state is Disconnected with no timer and processing stopped, and an
immediately following disconnect — whatever the library outcome — reports
success and leaves the state exactly unchanged, firing no further
status-change notification.  In particular disconnect from Disconnected is a
no-op success. -/
theorem disconnect_idempotent (s : MQTTClientWrapper) (lib1 : Bool)
    (h : (disconnect s lib1).1 = true) (lib2 : Bool) :
    disconnect (disconnect s lib1).2 lib2 = (true, (disconnect s lib1).2) := by
  apply disconnect_noop
  · rw [disconnect_success_state s lib1 h, set_status_status]
  · rw [disconnect_success_state s lib1 h, set_status_timer]
    rfl
  · rw [disconnect_success_state s lib1 h, set_status_processing]

def sConn : MQTTClientWrapper :=
  runEvents initWrapper [.connectReq ("h") 1883 .success, .connAck true []]

theorem disconnect_idempotent_witness :
    disconnect (disconnect sConn true).2 false = (true, (disconnect sConn true).2) :=
  disconnect_idempotent sConn true (by decide) false

/-- C8 counterexample: from a reachable Connected state, a first disconnect
whose library-level disconnect fails leaves the state Connected and returns
failure; the immediately following disconnect then returns success but
changes the observable state — the status flips to Disconnected and a fresh
status-change notification is fired — contradicting the claim that a second
disconnect in a row never changes state or notifies. -/
theorem disconnect_idempotent_counterexample :
    (disconnect (disconnect sConn false).2 true).1 = true ∧
    (disconnect (disconnect sConn false).2 true).2.status
      ≠ (disconnect sConn false).2.status ∧
    (disconnect (disconnect sConn false).2 true).2.notifications
      ≠ (disconnect sConn false).2.notifications := by
  refine ⟨by decide, by decide, by decide⟩

lemma subscribe_status (s : MQTTClientWrapper) (t : String) (q : Nat) (b : Bool) :
    (subscribe_to_topic s t q b).2.status = s.status := by
  unfold subscribe_to_topic queue_subscription
  split
  · split <;> rfl
  · split <;> rfl

lemma subscribe_not_connected (s : MQTTClientWrapper) (t : String) (q : Nat) (b : Bool)
    (hns : s.status ≠ .connected) :
    subscribe_to_topic s t q b = queue_subscription s t := by
  unfold subscribe_to_topic
  rw [if_pos hns]

lemma subscribe_connected_pending (s : MQTTClientWrapper) (t : String) (q : Nat) (b : Bool)
    (hconn : s.status = .connected) :
    (subscribe_to_topic s t q b).2.pending_subscriptions = s.pending_subscriptions := by
  have hns : ¬ s.status ≠ .connected := by simp [hconn]
  unfold subscribe_to_topic
  rw [if_neg hns]
  split <;> rfl

lemma queue_subscription_subscribed (s : MQTTClientWrapper) (t : String) :
    (queue_subscription s t).2.subscribed_topics = s.subscribed_topics := by
  unfold queue_subscription
  split <;> rfl

lemma set_status_pending (s : MQTTClientWrapper) (n : ConnectionStatus) :
    (_set_status s n).pending_subscriptions = s.pending_subscriptions := by
  unfold _set_status
  split <;> rfl

lemma set_status_subscribed (s : MQTTClientWrapper) (n : ConnectionStatus) :
    (_set_status s n).subscribed_topics = s.subscribed_topics := by
  unfold _set_status
  split <;> rfl

lemma flushPending_cons_mem {s : MQTTClientWrapper} {t : String} {accepted : List String}
    (ts : List String) (hconn : s.status = .connected) (hmem : t ∈ accepted) :
    flushPending (t :: ts) accepted s
      = flushPending ts accepted
          { s with subscribed_topics := setKey s.subscribed_topics t 0,
                   pending_subscriptions := s.pending_subscriptions.erase t } := by
  show flushPending ts accepted _ = _
  congr 1
  simp [subscribe_to_topic, hconn, hmem]

lemma flushPending_cons_not_mem {s : MQTTClientWrapper} {t : String} {accepted : List String}
    (ts : List String) (hconn : s.status = .connected) (hmem : t ∉ accepted) :
    flushPending (t :: ts) accepted s = flushPending ts accepted s := by
  show flushPending ts accepted _ = _
  congr 1
  simp [subscribe_to_topic, hconn, hmem]

lemma flushPending_status (l accepted : List String) :
    ∀ s : MQTTClientWrapper, (flushPending l accepted s).status = s.status := by
  induction l with
  | nil =>
    intro s
    rfl
  | cons t ts ih =>
    intro s
    show (flushPending ts accepted _).status = _
    rw [ih]
    split
    · exact subscribe_status s t 0 _
    · exact subscribe_status s t 0 _

lemma flushPending_count_le (accepted : List String) (u : String) :
    ∀ (l : List String) (s : MQTTClientWrapper), s.status = .connected →
      (flushPending l accepted s).pending_subscriptions.count u
        ≤ s.pending_subscriptions.count u := by
  intro l
  induction l with
  | nil =>
    intro s _
    exact le_refl _
  | cons t ts ih =>
    intro s hconn
    by_cases hmem : t ∈ accepted
    · rw [flushPending_cons_mem ts hconn hmem]
      refine le_trans (ih _ hconn) ?_
      show (s.pending_subscriptions.erase t).count u ≤ _
      rw [List.count_erase]
      exact Nat.sub_le _ _
    · rw [flushPending_cons_not_mem ts hconn hmem]
      exact ih s hconn

lemma flushPending_removes (accepted : List String) (t : String) (hacc : t ∈ accepted) :
    ∀ (l : List String) (s : MQTTClientWrapper), s.status = .connected →
      s.pending_subscriptions.count t ≤ l.count t →
      (flushPending l accepted s).pending_subscriptions.count t = 0 := by
  intro l
  induction l with
  | nil =>
    intro s _ hcnt
    simpa using hcnt
  | cons u ts ih =>
    intro s hconn hcnt
    rw [List.count_cons] at hcnt
    by_cases hmem : u ∈ accepted
    · rw [flushPending_cons_mem ts hconn hmem]
      refine ih _ ?_ ?_
      · exact hconn
      · show (s.pending_subscriptions.erase u).count t ≤ ts.count t
        rw [List.count_erase]
        by_cases hu : u = t
        · simp only [beq_iff_eq, hu, if_true] at hcnt ⊢
          omega
        · simp [beq_iff_eq, hu] at hcnt ⊢
          omega
    · rw [flushPending_cons_not_mem ts hconn hmem]
      apply ih s hconn
      have hu : u ≠ t := fun he => hmem (he ▸ hacc)
      simp [beq_iff_eq, hu] at hcnt
      omega

lemma flushPending_empties (accepted : List String) (s : MQTTClientWrapper)
    (hconn : s.status = .connected)
    (hall : ∀ u ∈ s.pending_subscriptions, u ∈ accepted) :
    (flushPending s.pending_subscriptions accepted s).pending_subscriptions = [] := by
  rw [List.eq_nil_iff_forall_not_mem]
  intro u hu
  have hpos : 0 < (flushPending s.pending_subscriptions accepted s).pending_subscriptions.count u :=
    List.count_pos_iff.mpr hu
  by_cases hmem : u ∈ s.pending_subscriptions
  · have hz := flushPending_removes accepted u (hall u hmem) s.pending_subscriptions s hconn
      (le_refl _)
    omega
  · have h0 : s.pending_subscriptions.count u = 0 := List.count_eq_zero.mpr hmem
    have hle := flushPending_count_le accepted u s.pending_subscriptions s hconn
    omega

lemma mem_keys_setKey_self (l : List (String × Nat)) (t : String) (q : Nat) :
    t ∈ (setKey l t q).map Prod.fst := by
  induction l with
  | nil => simp [setKey]
  | cons p rest ih =>
    obtain ⟨t', q'⟩ := p
    by_cases h : t' = t
    · simp [setKey, h]
    · simp [setKey, h]
      right
      simpa using ih

lemma mem_keys_setKey_mono (l : List (String × Nat)) (t u : String) (q : Nat)
    (h : u ∈ l.map Prod.fst) : u ∈ (setKey l t q).map Prod.fst := by
  induction l with
  | nil => simp at h
  | cons p rest ih =>
    obtain ⟨t', q'⟩ := p
    rw [List.map_cons, List.mem_cons] at h
    by_cases he : t' = t
    · have hs : setKey ((t', q') :: rest) t q = (t, q) :: rest := by
        simp [setKey, he]
      rw [hs, List.map_cons, List.mem_cons]
      rcases h with h | h
      · left
        rw [h]
        exact he
      · right
        exact h
    · have hs : setKey ((t', q') :: rest) t q = (t', q') :: setKey rest t q := by
        simp [setKey, he]
      rw [hs, List.map_cons, List.mem_cons]
      rcases h with h | h
      · left
        exact h
      · right
        exact ih h

lemma flushPending_activates (accepted : List String) (t : String) (hacc : t ∈ accepted) :
    ∀ (l : List String) (s : MQTTClientWrapper), s.status = .connected →
      (t ∈ l ∨ topic_active s t) → topic_active (flushPending l accepted s) t := by
  intro l
  induction l with
  | nil =>
    intro s _ h
    rcases h with h | h
    · simp at h
    · exact h
  | cons u ts ih =>
    intro s hconn h
    by_cases hmem : u ∈ accepted
    · rw [flushPending_cons_mem ts hconn hmem]
      refine ih _ ?_ ?_
      · exact hconn
      · rcases h with h | h
        · rcases List.mem_cons.mp h with h1 | h2
          · right
            show t ∈ (setKey s.subscribed_topics u 0).map Prod.fst
            rw [h1]
            exact mem_keys_setKey_self _ _ _
          · left
            exact h2
        · right
          show t ∈ (setKey s.subscribed_topics u 0).map Prod.fst
          exact mem_keys_setKey_mono _ _ _ _ h
    · rw [flushPending_cons_not_mem ts hconn hmem]
      apply ih s hconn
      rcases h with h | h
      · rcases List.mem_cons.mp h with h1 | h2
        · exact absurd (h1 ▸ hacc) hmem
        · left
          exact h2
      · right
        exact h

/-- Events under which the disjointness argument is carried out: no
connection-loss or disconnect events, no failed connect acknowledgments, and
every connect acknowledgment's broker accepts all currently pending topics. -/
def okEvent (s : MQTTClientWrapper) : MEvent → Bool
  | .connAck ok accepted =>
    ok && s.pending_subscriptions.all (fun t => decide (t ∈ accepted))
  | .discSignal _ => false
  | .discReq _ => false
  | _ => true

/-- A trace every event of which is ok at the state where it fires. -/
def goodTrace : MQTTClientWrapper → List MEvent → Bool
  | _, [] => true
  | s, e :: es => okEvent s e && goodTrace (applyEvent s e) es

/-- The inductive invariant behind pending/active disjointness: while
connected nothing is pending, and before ever being connected nothing is
active. -/
def WrapperInv (s : MQTTClientWrapper) : Prop :=
  (s.status = .connected → s.pending_subscriptions = []) ∧
  (s.status ≠ .connected → s.subscribed_topics = [])

lemma unsubscribe_fields (s : MQTTClientWrapper) (t : String) (b : Bool) :
    (unsubscribe_from_topic s t b).2.status = s.status ∧
    (unsubscribe_from_topic s t b).2.pending_subscriptions = s.pending_subscriptions := by
  unfold unsubscribe_from_topic
  split
  · exact ⟨rfl, rfl⟩
  · split <;> exact ⟨rfl, rfl⟩

lemma unsubscribe_not_connected (s : MQTTClientWrapper) (t : String) (b : Bool)
    (hns : s.status ≠ .connected) :
    (unsubscribe_from_topic s t b).2 = s := by
  unfold unsubscribe_from_topic
  rw [if_pos hns]

lemma connect_registry_fields (s : MQTTClientWrapper) (h : String) (p : Int)
    (u pw : Option String) (lib : LibConnect) :
    (connect s h p u pw lib).2.subscribed_topics = s.subscribed_topics ∧
    (connect s h p u pw lib).2.pending_subscriptions = s.pending_subscriptions := by
  unfold connect _set_status
  split
  · exact ⟨rfl, rfl⟩
  · cases lib <;> (dsimp only; repeat' split) <;> exact ⟨rfl, rfl⟩

lemma connect_status_ne (s : MQTTClientWrapper) (h : String) (p : Int)
    (u pw : Option String) (lib : LibConnect)
    (hg : ¬ (s.status = .connected ∨ s.status = .connecting)) :
    (connect s h p u pw lib).2.status ≠ .connected := by
  unfold connect _set_status
  rw [if_neg hg]
  cases lib <;> (dsimp only; repeat' split) <;> simp_all

lemma on_connect_true_pre (s : MQTTClientWrapper) (accepted : List String) :
    ∃ s2 : MQTTClientWrapper,
      _on_connect s true accepted = flushPending s2.pending_subscriptions accepted s2 ∧
      s2.status = .connected ∧
      s2.pending_subscriptions = s.pending_subscriptions := by
  refine ⟨{ _set_status s .connected with
      connection_attempts := 0
      reconnect_attempts := 0
      last_error := none
      reconnect_timer := none }, rfl, ?_, ?_⟩
  · show (_set_status s .connected).status = _
    exact set_status_status s .connected
  · show (_set_status s .connected).pending_subscriptions = _
    exact set_status_pending s .connected

lemma inv_applyEvent (s : MQTTClientWrapper) (e : MEvent)
    (hInv : WrapperInv s) (hok : okEvent s e = true) :
    WrapperInv (applyEvent s e) := by
  obtain ⟨h1, h2⟩ := hInv
  cases e with
  | subscribeReq t q b =>
    constructor
    · intro hc
      simp only [applyEvent] at hc ⊢
      rw [subscribe_status] at hc
      rw [subscribe_connected_pending s t q b hc]
      exact h1 hc
    · intro hc
      simp only [applyEvent] at hc ⊢
      rw [subscribe_status] at hc
      rw [subscribe_not_connected s t q b hc, queue_subscription_subscribed]
      exact h2 hc
  | unsubscribeReq t b =>
    obtain ⟨hst, hpe⟩ := unsubscribe_fields s t b
    constructor
    · intro hc
      simp only [applyEvent] at hc ⊢
      rw [hst] at hc
      rw [hpe]
      exact h1 hc
    · intro hc
      simp only [applyEvent] at hc ⊢
      rw [hst] at hc
      rw [unsubscribe_not_connected s t b hc]
      exact h2 hc
  | connAck ok accepted =>
    rw [okEvent, Bool.and_eq_true] at hok
    obtain ⟨hok1, hok2⟩ := hok
    subst hok1
    obtain ⟨s2, heq, hst, hpe⟩ := on_connect_true_pre s accepted
    simp only [applyEvent]
    rw [heq]
    constructor
    · intro _
      apply flushPending_empties accepted s2 hst
      intro u hu
      rw [hpe] at hu
      have := List.all_eq_true.mp hok2 u hu
      simpa using this
    · intro hc
      rw [flushPending_status, hst] at hc
      exact absurd rfl hc
  | discSignal clean =>
    simp [okEvent] at hok
  | discReq lib =>
    simp [okEvent] at hok
  | connectReq h p lib =>
    simp only [applyEvent]
    by_cases hg : s.status = .connected ∨ s.status = .connecting
    · rw [show (connect s h p none none lib) = (false, s) from by
        unfold connect
        rw [if_pos hg]]
      exact ⟨h1, h2⟩
    · obtain ⟨hsu, hpe⟩ := connect_registry_fields s h p none none lib
      have hne := connect_status_ne s h p none none lib hg
      constructor
      · intro hc
        exact absurd hc hne
      · intro _
        rw [hsu]
        apply h2
        intro hcc
        exact hg (Or.inl hcc)

lemma inv_runEvents (tr : List MEvent) :
    ∀ s : MQTTClientWrapper, WrapperInv s → goodTrace s tr = true →
      WrapperInv (runEvents s tr) := by
  induction tr with
  | nil =>
    intro s h _
    exact h
  | cons e es ih =>
    intro s h hg
    rw [goodTrace, Bool.and_eq_true] at hg
    exact ih _ (inv_applyEvent s e h hg.1) hg.2

/-- C3 amended: pending and active topic sets are not disjoint in general
(see the counterexample), but they are disjoint along every trace from the
initial state that contains no disconnect or connection-loss events, no
failed connect acknowledgments, and in which the broker accepts every
subscribe — in any state reached by such a trace no topic is simultaneously
pending and active. -/
theorem pending_active_disjoint (tr : List MEvent)
    (h : goodTrace initWrapper tr = true) (t : String) :
    ¬ (t ∈ (runEvents initWrapper tr).pending_subscriptions ∧
       topic_active (runEvents initWrapper tr) t) := by
  have hInv := inv_runEvents tr initWrapper
    ⟨fun hc => absurd hc (by decide), fun _ => rfl⟩ h
  rintro ⟨hp, ha⟩
  obtain ⟨h1, h2⟩ := hInv
  by_cases hc : (runEvents initWrapper tr).status = .connected
  · rw [h1 hc] at hp
    simp at hp
  · rw [topic_active, h2 hc] at ha
    simp at ha

theorem pending_active_disjoint_witness :
    ¬ (("a") ∈ (runEvents initWrapper
          [.subscribeReq ("a") 0 true, .connAck true [("a")]]).pending_subscriptions ∧
       topic_active (runEvents initWrapper
          [.subscribeReq ("a") 0 true, .connAck true [("a")]]) ("a")) :=
  pending_active_disjoint [.subscribeReq ("a") 0 true, .connAck true [("a")]]
    (by decide) ("a")

/-- The trace violating pending/active disjointness: subscribe while
disconnected, successful connect acknowledgment (the topic becomes active),
unexpected connection loss, then subscribe the same topic again while
disconnected — it is queued as pending although it is still recorded as
active. -/
def cexTrace : List MEvent :=
  [.subscribeReq ("t") 0 true, .connAck true [("t")], .discSignal false,
   .subscribeReq ("t") 0 true]

/-- C3 counterexample: after cexTrace the topic is both pending and active,
so the disjointness invariant fails on the code. -/
theorem pending_active_counterexample :
    ("t") ∈ (runEvents initWrapper cexTrace).pending_subscriptions ∧
    topic_active (runEvents initWrapper cexTrace) ("t") := by
  constructor
  · decide
  · decide

/-- C7 amended: a subscribe issued while not connected for a topic that is
not yet pending queues it and reports success; an already-pending topic is
left alone but the call reports failure (not success as claimed).  The
queued topic does not appear among the subscribed topics until a successful
connect acknowledgment whose broker accepts it, after which it is active and
no longer pending. -/
theorem subscribe_queued (s : MQTTClientWrapper) (t : String) (q : Nat) (b : Bool)
    (accepted : List String)
    (hns : s.status ≠ .connected) (hp : t ∉ s.pending_subscriptions)
    (ha : ¬ topic_active s t) (hacc : t ∈ accepted) :
    (subscribe_to_topic s t q b).1 = true ∧
    t ∈ (subscribe_to_topic s t q b).2.pending_subscriptions ∧
    ¬ topic_active (subscribe_to_topic s t q b).2 t ∧
    topic_active (_on_connect (subscribe_to_topic s t q b).2 true accepted) t ∧
    t ∉ (_on_connect (subscribe_to_topic s t q b).2 true accepted).pending_subscriptions := by
  have hqs : subscribe_to_topic s t q b
      = (true, { s with pending_subscriptions := s.pending_subscriptions ++ [t] }) := by
    rw [subscribe_not_connected s t q b hns]
    unfold queue_subscription
    rw [if_neg hp]
  rw [hqs]
  refine ⟨rfl, by simp, ?_, ?_, ?_⟩
  · exact ha
  · obtain ⟨s2, heq, hst, hpe⟩ := on_connect_true_pre
      { s with pending_subscriptions := s.pending_subscriptions ++ [t] } accepted
    rw [heq]
    refine flushPending_activates accepted t hacc _ _ hst ?_
    left
    rw [hpe]
    simp
  · obtain ⟨s2, heq, hst, hpe⟩ := on_connect_true_pre
      { s with pending_subscriptions := s.pending_subscriptions ++ [t] } accepted
    rw [heq]
    exact List.count_eq_zero.mp
      (flushPending_removes accepted t hacc s2.pending_subscriptions s2 hst (le_refl _))

def sPend : MQTTClientWrapper := (queue_subscription initWrapper ("t")).2

/-- C7 counterexample: a subscribe issued while not connected for a topic
that is already pending leaves the state unchanged but returns failure
(False), contradicting the claim that such a call is a no-op reporting
success. -/
theorem subscribe_queued_counterexample :
    sPend.status ≠ .connected ∧
    ("t") ∈ sPend.pending_subscriptions ∧
    (subscribe_to_topic sPend ("t") 0 true).1 = false ∧
    (subscribe_to_topic sPend ("t") 0 true).2 = sPend := by
  refine ⟨by decide, by decide, by decide, by decide⟩

theorem subscribe_queued_witness :
    (subscribe_to_topic initWrapper ("x") 0 true).1 = true ∧
    ("x") ∈ (subscribe_to_topic initWrapper ("x") 0 true).2.pending_subscriptions ∧
    ¬ topic_active (subscribe_to_topic initWrapper ("x") 0 true).2 ("x") ∧
    topic_active
      (_on_connect (subscribe_to_topic initWrapper ("x") 0 true).2 true [("x")]) ("x") ∧
    ("x") ∉ (_on_connect
      (subscribe_to_topic initWrapper ("x") 0 true).2 true [("x")]).pending_subscriptions :=
  subscribe_queued initWrapper ("x") 0 true [("x")]
    (by decide) (by decide) (by decide) (by decide)

/-- The ASCII whitespace characters stripped by Python str.strip(). -/
def pyWhitespace : List Char := [' ', '\t', '\n', '\r', '\x0B', '\x0C']

def isPyWs (c : Char) : Bool := decide (c ∈ pyWhitespace)

/-- Python str.strip(): drop leading and trailing whitespace. -/
def pyStrip (l : List Char) : List Char :=
  ((l.dropWhile isPyWs).reverse.dropWhile isPyWs).reverse

/-- The invalid_chars list of validate_topic in app.py: NUL, tab, LF, CR. -/
def invalid_chars : List Char := ['\x00', '\t', '\n', '\r']

/-- Python str.split('/') on a character list. -/
def splitSlash : List Char → List (List Char)
  | [] => [[]]
  | c :: rest =>
    if c = '/' then [] :: splitSlash rest
    else
      match splitSlash rest with
      | [] => [[c]]
      | p :: ps => (c :: p) :: ps

/-- A '/'-delimited segment that misuses a wildcard: it contains '+' or '#'
without being exactly that single character. -/
def segBad (p : List Char) : Bool :=
  decide (('+' ∈ p ∧ p ≠ ['+']) ∨ ('#' ∈ p ∧ p ≠ ['#']))

/-- validate_topic from app.py: reject empty or whitespace-only topics,
topics containing NUL/tab/LF/CR, topics with a non-standalone wildcard
segment, and topics containing '#' that do not end with '#'. -/
def validate_topic (topic : String) : Bool :=
  if topic.data = [] ∨ pyStrip topic.data = [] then false
  else if invalid_chars.any (fun c => decide (c ∈ topic.data)) then false
  else if (splitSlash topic.data).any segBad then false
  else if '#' ∈ topic.data ∧ topic.data.getLast? ≠ some '#' then false
  else true

/-- The acceptance condition exactly as the claim words it: non-empty, none
of NUL/tab/CR/LF, every segment containing a wildcard is exactly that single
character, and '#' (if present) appears only as the final segment. -/
def validTopicClaim (topic : String) : Prop :=
  topic.data ≠ [] ∧
  (∀ c ∈ invalid_chars, c ∉ topic.data) ∧
  (∀ p ∈ splitSlash topic.data,
    ¬ (('+' ∈ p ∧ p ≠ ['+']) ∨ ('#' ∈ p ∧ p ≠ ['#']))) ∧
  ('#' ∈ topic.data →
    (splitSlash topic.data).getLast? = some ['#'] ∧
    ∀ p ∈ (splitSlash topic.data).dropLast, '#' ∉ p)

instance (topic : String) : Decidable (validTopicClaim topic) := by
  unfold validTopicClaim
  infer_instance

/-- The acceptance condition the code actually implements: non-empty after
stripping whitespace, none of NUL/tab/CR/LF, every wildcard segment
standalone, and if '#' occurs anywhere the topic's last character is '#'. -/
def validTopicAmended (topic : String) : Prop :=
  pyStrip topic.data ≠ [] ∧
  (∀ c ∈ invalid_chars, c ∉ topic.data) ∧
  (∀ p ∈ splitSlash topic.data,
    ¬ (('+' ∈ p ∧ p ≠ ['+']) ∨ ('#' ∈ p ∧ p ≠ ['#']))) ∧
  ('#' ∈ topic.data → topic.data.getLast? = some '#')

/-- C9 amended: the validator accepts a topic iff it is non-empty after
stripping whitespace, contains none of NUL/tab/CR/LF, every segment
containing '+' or '#' is exactly that character, and if '#' occurs the topic
ends in '#'; concretely it rejects sensor/#/data and a+b/x and accepts
sensor/+/data and home/#. -/
theorem validate_topic_spec :
    (∀ topic : String, validate_topic topic = true ↔ validTopicAmended topic) ∧
    validate_topic ("sensor/#/data") = false ∧
    validate_topic ("a+b/x") = false ∧
    validate_topic ("sensor/+/data") = true ∧
    validate_topic ("home/#") = true := by
  refine ⟨?_, by decide, by decide, by decide, by decide⟩
  intro topic
  unfold validate_topic validTopicAmended
  by_cases h1 : topic.data = [] ∨ pyStrip topic.data = []
  · have h1' : pyStrip topic.data = [] := by
      rcases h1 with h | h
      · rw [h]
        rfl
      · exact h
    rw [if_pos h1]
    simp [h1']
  · obtain ⟨h1a, h1b⟩ := not_or.mp h1
    rw [if_neg h1]
    by_cases h2 : invalid_chars.any (fun c => decide (c ∈ topic.data)) = true
    · rw [if_pos h2]
      simp only [Bool.false_eq_true, false_iff]
      intro hR
      obtain ⟨_, hInv, _, _⟩ := hR
      rw [List.any_eq_true] at h2
      obtain ⟨c, hc1, hc2⟩ := h2
      rw [decide_eq_true_eq] at hc2
      exact hInv c hc1 hc2
    · rw [if_neg (by simpa using h2)]
      by_cases h3 : (splitSlash topic.data).any segBad = true
      · rw [if_pos h3]
        simp only [Bool.false_eq_true, false_iff]
        intro hR
        obtain ⟨_, _, hSeg, _⟩ := hR
        rw [List.any_eq_true] at h3
        obtain ⟨p, hp1, hp2⟩ := h3
        rw [segBad, decide_eq_true_eq] at hp2
        exact hSeg p hp1 hp2
      · rw [if_neg (by simpa using h3)]
        by_cases h4 : '#' ∈ topic.data ∧ topic.data.getLast? ≠ some '#'
        · rw [if_pos h4]
          simp only [Bool.false_eq_true, false_iff]
          intro hR
          obtain ⟨_, _, _, hHash⟩ := hR
          exact h4.2 (hHash h4.1)
        · rw [if_neg h4]
          simp only [true_iff]
          refine ⟨h1b, ?_, ?_, ?_⟩
          · intro c hc hmem
            apply h2
            rw [List.any_eq_true]
            exact ⟨c, hc, decide_eq_true hmem⟩
          · intro p hp hbad
            apply h3
            rw [List.any_eq_true]
            refine ⟨p, hp, ?_⟩
            rw [segBad, decide_eq_true_eq]
            exact hbad
          · intro hin
            by_contra hlast
            exact h4 ⟨hin, hlast⟩

/-- C9 counterexample: the claim's acceptance condition and the code
disagree: the whitespace-only topic consisting of a single space meets every
condition of the claim yet the code rejects it (str.strip() empties it), and
the topic hash-slash-x-slash-hash is accepted by the code (it ends in '#')
although '#' occurs there in a non-final segment, which the claim rejects. -/
theorem validate_topic_claim_counterexample :
    validate_topic (" ") = false ∧ validTopicClaim (" ") ∧
    validate_topic ("#/x/#") = true ∧ ¬ validTopicClaim ("#/x/#") := by
  refine ⟨by decide, by decide, by decide, by decide⟩

end Flowero
